/-
Verification of the FAL.ai batch-processing core
(`core/launcher/batch_processor.py`, `core/launcher/cost_calculator.py`)
against its natural-language specification.

The Python code is shallowly embedded: dataclasses become structures,
methods become pure functions (the current wall-clock timestamp is passed
explicitly as a string argument), dollar amounts become rationals, and the
scheduler's concurrency behaviour becomes an explicit step relation.
-/
import Mathlib

namespace FalBatch

/-- Job status strings used by `BatchJob.status` in `batch_processor.py`
("pending", "processing", "completed", "failed", "cancelled"). -/
inductive JobStatus where
  | pending
  | processing
  | completed
  | failed
  | cancelled
deriving DecidableEq, Repr

/-- Embedding of the `BatchJob` dataclass (batch_processor.py lines 22-41).
`result` and `output_paths` are opaque payloads modelled as strings;
`estimated_cost` (a Python float holding money) is modelled as a rational;
`parameters` is the key→value map, with integer values (the only parameter
the core reads is the integer `duration`). -/
structure BatchJob where
  id : String
  image_path : String
  prompt : String
  model : String
  parameters : List (String × Int)
  priority : Int := 1
  status : JobStatus := .pending
  created_at : String := ""
  started_at : Option String := none
  completed_at : Option String := none
  result : Option String := none
  error_message : Option String := none
  retry_count : Nat := 0
  max_retries : Nat := 2
  estimated_cost : ℚ := 0
  output_paths : Option String := none
deriving DecidableEq, Repr

namespace BatchJob

/-- `BatchJob.start` (lines 46-49): mark the job processing. -/
def start (j : BatchJob) (now : String) : BatchJob :=
  { j with status := .processing, started_at := some now }

/-- `BatchJob.complete` (lines 51-57). -/
def complete (j : BatchJob) (res : String) (outputPaths : Option String)
    (now : String) : BatchJob :=
  { j with status := .completed, completed_at := some now, result := some res,
           output_paths := outputPaths.orElse (fun _ => j.output_paths) }

/-- `BatchJob.fail` (lines 59-63). -/
def fail (j : BatchJob) (errorMessage : String) (now : String) : BatchJob :=
  { j with status := .failed, completed_at := some now,
           error_message := some errorMessage }

/-- `BatchJob.cancel` (lines 65-68). -/
def cancel (j : BatchJob) (now : String) : BatchJob :=
  { j with status := .cancelled, completed_at := some now }

/-- `BatchJob.can_retry` (lines 70-72):
`self.status == "failed" and self.retry_count < self.max_retries`. -/
def can_retry (j : BatchJob) : Bool :=
  j.status == .failed && j.retry_count < j.max_retries

/-- `BatchJob.retry` (lines 74-81): guarded by `can_retry`. -/
def retry (j : BatchJob) : BatchJob :=
  if j.can_retry then
    { j with retry_count := j.retry_count + 1, status := .pending,
             started_at := none, completed_at := none, error_message := none }
  else j

end BatchJob

/-! ## Cost calculator (`cost_calculator.py`) -/

/-- One entry of the `model_pricing` database
(cost_calculator.py lines 24-95). Dollar rates are rationals. -/
structure ModelPricing where
  name : String
  cost_5s : ℚ
  cost_10s : ℚ
  cost_per_second : ℚ
  max_duration : Int
  tier : String
  quality : String
  efficiency_score : ℚ
deriving DecidableEq, Repr

/-- The `model_pricing` dictionary (cost_calculator.py lines 24-95). -/
def model_pricing : List (String × ModelPricing) :=
  [ ("kling_21_standard",
      ⟨"Kling 2.1 Standard", 1/4, 1/2, 1/20, 10, "Standard", "High", 19/2⟩),
    ("kling_21_pro",
      ⟨"Kling 2.1 Pro", 9/20, 9/10, 9/100, 10, "Professional", "Premium", 44/5⟩),
    ("kling_21_master",
      ⟨"Kling 2.1 Master", 7/10, 7/5, 7/50, 10, "Premium", "Ultra", 15/2⟩),
    ("kling_20_master",
      ⟨"Kling 2.0 Master", 7/5, 14/5, 7/25, 10, "Legacy Premium", "Premium", 6⟩),
    ("kling_16_pro",
      ⟨"Kling 1.6 Pro", 19/40, 19/20, 19/200, 10, "Legacy", "Good", 36/5⟩),
    ("luma_dream",
      ⟨"Luma Dream Machine", 1/2, 9/10, 1/10, 9, "Alternative", "High", 8⟩),
    ("haiper_20",
      ⟨"Haiper 2.0", 1/5, 2/5, 1/25, 10, "Budget", "Good", 49/5⟩) ]

/-- Dictionary lookup `model in self.model_pricing` / `self.model_pricing[model]`. -/
def lookupPricing (model : String) : Option ModelPricing :=
  (model_pricing.find? (fun p => p.1 == model)).map Prod.snd

/-- Result dictionary of `CostCalculator.calculate_cost` (lines 127-166).
The unknown-model branch returns `{"error": ..., "cost": 0.0, "model": ...,
"duration": ...}` (note: no `total_cost` key); the known-model branch
returns the full cost record. -/
inductive CostResult where
  | unknownModel (error : String) (cost : ℚ) (model : String) (duration : Int)
  | priced (model : String) (model_name : String) (duration : Int)
      (cost_per_second : ℚ) (total_cost : ℚ) (tier : String) (quality : String)
      (efficiency_score : ℚ) (duration_warning : Option String)
deriving DecidableEq, Repr

/-- `CostCalculator.calculate_cost` (cost_calculator.py lines 127-166). -/
def calculate_cost (model : String) (duration : Int) : CostResult :=
  match lookupPricing model with
  | none =>
      .unknownModel ("Unknown model: " ++ model) 0 model duration
  | some info =>
      let actual_duration := min duration info.max_duration
      let duration_warning :=
        if duration > info.max_duration then
          some ("Duration capped at " ++ toString info.max_duration ++ "s (model limit)")
        else none
      .priced model info.name actual_duration info.cost_per_second
        (info.cost_per_second * actual_duration) info.tier info.quality
        info.efficiency_score duration_warning

/-- `cost_info.get("total_cost", 0.0)` as used by `BatchProcessor.add_job`
(batch_processor.py line 204): the unknown-model dictionary has no
`total_cost` key, so the default `0.0` is returned. -/
def CostResult.totalCostOrZero : CostResult → ℚ
  | .unknownModel _ _ _ _ => 0
  | .priced _ _ _ _ total _ _ _ _ => total

/-! ## Processor state (`BatchProcessor`) -/

/-- The statistics dictionary `BatchProcessor.stats`
(batch_processor.py lines 121-129). -/
structure Stats where
  total_jobs : Nat := 0
  completed_jobs : Nat := 0
  failed_jobs : Nat := 0
  cancelled_jobs : Nat := 0
  total_cost : ℚ := 0
  total_processing_time : ℚ := 0
  average_job_time : ℚ := 0
deriving DecidableEq, Repr

/-- The mutable job bookkeeping of `BatchProcessor`
(batch_processor.py lines 107-110 and 121-129): the queue list `jobs`,
the `completed_jobs` and `failed_jobs` lists, and the stats dictionary. -/
structure ProcState where
  jobs : List BatchJob := []
  completed_jobs : List BatchJob := []
  failed_jobs : List BatchJob := []
  stats : Stats := {}
deriving DecidableEq, Repr

/-- `self.jobs + self.completed_jobs + self.failed_jobs`, the concatenation
used throughout `batch_processor.py` (e.g. line 176) as the full ledger. -/
def ProcState.allJobs (st : ProcState) : List BatchJob :=
  st.jobs ++ st.completed_jobs ++ st.failed_jobs

/-! ## Priority ordering (`add_job`, line 219)

`self.jobs.sort(key=lambda x: (x.priority, x.created_at), reverse=True)`:
a stable sort by the lexicographic key `(priority, created_at)`, with the
comparison reversed.  In the descending order, `a` may stay before `b`
exactly when `b`'s key is ≤ `a`'s key. -/

/-- The reversed key comparison of `add_job`'s sort: `a` precedes `b` iff
`(b.priority, b.created_at) ≤ (a.priority, a.created_at)` lexicographically
(Python compares ISO-format timestamps as strings). -/
def jobLeDesc (a b : BatchJob) : Prop :=
  b.priority < a.priority ∨ (b.priority = a.priority ∧ b.created_at ≤ a.created_at)

instance : DecidableRel jobLeDesc := fun a b => by
  unfold jobLeDesc; infer_instance

instance : IsTotal BatchJob jobLeDesc where
  total a b := by
    unfold jobLeDesc
    rcases lt_trichotomy a.priority b.priority with h | h | h
    · exact Or.inr (Or.inl h)
    · rcases le_total a.created_at b.created_at with hc | hc
      · exact Or.inr (Or.inr ⟨h, hc⟩)
      · exact Or.inl (Or.inr ⟨h.symm, hc⟩)
    · exact Or.inl (Or.inl h)

instance : IsTrans BatchJob jobLeDesc where
  trans a b c hab hbc := by
    unfold jobLeDesc at *
    rcases hab with h1 | ⟨h1, h1'⟩ <;> rcases hbc with h2 | ⟨h2, h2'⟩
    · exact Or.inl (h2.trans h1)
    · exact Or.inl (h2 ▸ h1)
    · exact Or.inl (h1 ▸ h2)
    · exact Or.inr ⟨h2.trans h1, h2'.trans h1'⟩

/-- The stable sort of the pending queue performed at the end of `add_job`
(batch_processor.py line 219). -/
def sortJobs (l : List BatchJob) : List BatchJob :=
  l.insertionSort jobLeDesc

/-! ## `add_job` (batch_processor.py lines 187-232) -/

/-- Python `str.strip()`: remove leading and trailing whitespace. -/
def pyStrip (s : String) : String :=
  ⟨((s.data.dropWhile Char.isWhitespace).reverse.dropWhile Char.isWhitespace).reverse⟩

/-- The two exceptions `add_job` can raise (lines 191-195):
`FileNotFoundError` when the image path does not exist, `ValueError`
when `prompt.strip()` is empty. -/
inductive AddJobError where
  | fileNotFound (path : String)
  | emptyPrompt
deriving DecidableEq, Repr

/-- `parameters.get("duration", 5)` (line 202). -/
def getDuration (parameters : List (String × Int)) : Int :=
  ((parameters.find? (fun p => p.1 == "duration")).map Prod.snd).getD 5

/-- Python's `f"{n:03d}"`: the decimal digits zero-padded to width 3. -/
def formatted3 (n : Nat) : String :=
  let s := toString n
  ⟨List.replicate (3 - s.length) '0'⟩ ++ s

/-- `BatchProcessor.add_job` (lines 187-232), embedded as a pure function.
`fs` is the file system (`Path(image_path).exists()`), `now` the current
timestamp.  The two validations run before any mutation, so a raised
exception (returned as `.error`) leaves the state untouched; on success
the job is appended, the queue re-sorted, and the stats bumped, and the
fresh job id is returned.  The id embeds the timestamp and the current
queue length (line 198). -/
def add_job (fs : String → Bool) (st : ProcState) (image_path prompt model : String)
    (parameters : List (String × Int)) (priority : Int) (now : String) :
    ProcState × Except AddJobError String :=
  if !fs image_path then (st, .error (.fileNotFound image_path))
  else if pyStrip prompt = "" then (st, .error .emptyPrompt)
  else
    let job_id := "job_" ++ now ++ "_" ++ formatted3 st.jobs.length
    let duration := getDuration parameters
    let cost_info := calculate_cost model duration
    let estimated_cost := cost_info.totalCostOrZero
    let job : BatchJob :=
      { id := job_id, image_path := image_path, prompt := prompt, model := model,
        parameters := parameters, priority := priority, created_at := now,
        estimated_cost := estimated_cost }
    ({ st with
        jobs := sortJobs (st.jobs ++ [job]),
        stats := { st.stats with
                    total_jobs := st.stats.total_jobs + 1,
                    total_cost := st.stats.total_cost + estimated_cost } },
     .ok job_id)

/-! ## `remove_job` and `clear_queue` (batch_processor.py lines 263-320) -/

/-- The `for i, job in enumerate(self.jobs)` loop of `remove_job`
(lines 266-280): find the first job with the given id; if found, return
the queue without it together with the found job. -/
def removeFirst (job_id : String) : List BatchJob → Option (List BatchJob × BatchJob)
  | [] => none
  | j :: rest =>
      if j.id == job_id then some (rest, j)
      else match removeFirst job_id rest with
        | none => none
        | some (rest', found) => some (j :: rest', found)

/-- `BatchProcessor.remove_job` (lines 263-283): find the first job in the
queue list with the given id; if found, cancel it (whatever its status),
move it to `failed_jobs`, bump the cancelled counter, and return `True`.
(The `active_jobs` task-handle bookkeeping has no effect on job fields.) -/
def remove_job (st : ProcState) (job_id now : String) : ProcState × Bool :=
  match removeFirst job_id st.jobs with
  | none => (st, false)
  | some (rest, j) =>
      ({ st with
          jobs := rest,
          failed_jobs := st.failed_jobs ++ [j.cancel now],
          stats := { st.stats with
                      cancelled_jobs := st.stats.cancelled_jobs + 1 } },
       true)

/-- The filter argument accepted by `clear_queue` (lines 285-320). -/
inductive ClearFilter where
  | pending
  | failed
  | completed
  | invalid (s : String)
  | all
deriving DecidableEq, Repr

/-- `BatchProcessor.clear_queue` (lines 285-320): drop jobs matching the
filter; with no filter, empty everything and reset the stats dictionary. -/
def clear_queue (st : ProcState) (filter : ClearFilter) : ProcState :=
  match filter with
  | .pending => { st with jobs := st.jobs.filter (fun j => !(j.status == .pending)) }
  | .failed => { st with failed_jobs := [] }
  | .completed => { st with completed_jobs := [] }
  | .invalid _ => st
  | .all => { jobs := [], completed_jobs := [], failed_jobs := [], stats := {} }

/-! ## Persistence (`_load_batch_data`, `_save_batch_data`,
batch_processor.py lines 140-185)

The persisted ledger file's semantic content is the list of job records
under the `"jobs"` key (plus the stats, which no claim is about).  Loading
consumes such a list; saving emits a trace of file-system operations whose
single write carries the record list. -/

/-- The per-record categorisation step of `_load_batch_data`
(lines 148-161), folded over the persisted records in order. -/
def loadStep (st : ProcState) (j : BatchJob) : ProcState :=
  if j.status = .completed then
    { st with completed_jobs := st.completed_jobs ++ [j] }
  else if j.status = .failed ∨ j.status = .cancelled then
    { st with failed_jobs := st.failed_jobs ++ [j] }
  else
    let j := if j.status = .processing
      then { j with status := .pending, started_at := none }
      else j
    { st with jobs := st.jobs ++ [j] }

/-- `BatchProcessor._load_batch_data` (lines 140-167) restricted to the job
records (the stats merge touches no job field). -/
def load_batch_data (records : List BatchJob) : ProcState :=
  records.foldl loadStep {}

/-- What loading does to one record: a `processing` job is reset to
`pending` with `started_at` cleared (lines 157-160); every other record is
kept as-is. -/
def loadTransform (j : BatchJob) : BatchJob :=
  if j.status = .processing then { j with status := .pending, started_at := none }
  else j

/-- File-system operations performed by `_save_batch_data`.  `openTrunc`
is `open(path, "w")`, which truncates the file at once; the write payload
is the job-record list serialised under the `"jobs"` key. -/
inductive FileOp where
  | openTrunc (path : String)
  | write (path : String) (records : List BatchJob)
  | close (path : String)
  | rename (src : String) (dst : String)
deriving DecidableEq, Repr

/-- The path of the ledger file `self.batch_file`
(batch_processor.py line 103). -/
def batchFilePath : String := "data/batch_processing.json"

/-- `BatchProcessor._save_batch_data` (lines 169-185) as the trace of file
operations it performs: nothing when `save_progress` is off, otherwise a
direct truncating open of the ledger file, one write of the full record
list, and a close.  No temporary file and no rename appears. -/
def save_batch_data (save_progress : Bool) (st : ProcState) : List FileOp :=
  if !save_progress then []
  else
    [ .openTrunc batchFilePath,
      .write batchFilePath st.allJobs,
      .close batchFilePath ]

/-- The record list a load performed after `save_batch_data` would read
back: the payload of the write (line 176:
`self.jobs + self.completed_jobs + self.failed_jobs`). -/
def savedRecords (st : ProcState) : List BatchJob :=
  st.allJobs

/-- Whether a file operation is a rename/replace. -/
def FileOp.isRename : FileOp → Bool
  | .rename _ _ => true
  | _ => false

/-- The file a file operation touches (destination for a rename). -/
def FileOp.target : FileOp → String
  | .openTrunc p => p
  | .write p _ => p
  | .close p => p
  | .rename _ dst => dst

/-! ## Retry loop of `_process_single_job` (batch_processor.py lines 592-612)

On an execution failure the job is marked failed; if `auto_retry` is on and
`can_retry` holds, the job is retried (incrementing `retry_count`), the task
sleeps `2 ** retry_count` seconds, and `_process_single_job` recurses.
`process_always_fail` runs this loop against a generator that fails on
every attempt (the spec's `TransientExecutionError` scenario), returning
the final job and the number of execution attempts made. -/

/-- The backoff sleep of line 607, `retry_delay = 2 ** job.retry_count`,
computed after `job.retry()` has incremented `retry_count`. -/
def retryDelay (j : BatchJob) : Nat := 2 ^ j.retry_count

/-- The failure branch of `_process_single_job` (lines 592-612) when every
generation attempt raises: fail the job; if `auto_retry and job.can_retry()`
then `job.retry()` and recurse, else return.  The second component counts
execution attempts. -/
def process_always_fail (autoRetry : Bool) (errMsg now : String)
    (job : BatchJob) : BatchJob × Nat :=
  if autoRetry && (job.fail errMsg now).can_retry then
    let r := process_always_fail autoRetry errMsg now (job.fail errMsg now).retry
    (r.1, r.2 + 1)
  else (job.fail errMsg now, 1)
termination_by job.max_retries - job.retry_count
decreasing_by
  simp only [BatchJob.fail, BatchJob.retry, BatchJob.can_retry, Bool.and_eq_true,
    beq_iff_eq, decide_eq_true_eq] at *
  rename_i hout
  obtain ⟨-, -, hlt⟩ := hout
  split <;> dsimp only
  · omega
  · rename_i hcond
    exact absurd ⟨trivial, hlt⟩ hcond

/-- Terminal states per the spec's state machine (§4.1): `completed`,
`cancelled`, and `failed` once `retry_count == max_retries`. -/
def BatchJob.isTerminal (j : BatchJob) : Prop :=
  j.status = .completed ∨ j.status = .cancelled ∨
    (j.status = .failed ∧ j.retry_count = j.max_retries)

/-! ## Scheduler concurrency model (`process_batch` / `_process_single_job`,
batch_processor.py lines 474-482 and 541-546)

`process_batch` creates one task per pending job and an
`asyncio.Semaphore(self.max_concurrent)`.  Each task's body is
`async with semaphore: job.start(); ...` — the status becomes `processing`
only after the task holds a semaphore unit, and the unit is returned when
the `async with` block exits, which happens only once that job's execution
(success, failure or cancellation) has finished; the retry recursion at
line 610 acquires an additional unit while the outer one is still held.
The interleaving of the cooperative tasks is modelled as a step relation
over the jobs' statuses, the semaphore counter, and the number of units
each job's task chain currently holds. -/

/-- Scheduler state over `k` jobs: the free semaphore count, each job's
status, and the semaphore units held on behalf of each job. -/
structure SchedState (k : Nat) where
  avail : Nat
  status : Fin k → JobStatus
  held : Fin k → Nat

/-- One cooperative step of the batch run: a pending job's task acquires a
unit and marks the job processing (`async with semaphore` + `job.start()`);
a processing job finishes into `completed`/`failed`, or is retried back to
`pending` (its units stay held across the retry recursion); any job can be
cancelled (`remove_job`); a task chain returns a unit only after its job is
no longer processing. -/
inductive SchedStep {k : Nat} : SchedState k → SchedState k → Prop where
  | acquire (s : SchedState k) (i : Fin k)
      (ha : 0 < s.avail) (hp : s.status i = .pending) :
      SchedStep s ⟨s.avail - 1, Function.update s.status i .processing,
                   Function.update s.held i (s.held i + 1)⟩
  | finish (s : SchedState k) (i : Fin k) (h : s.status i = .processing) :
      SchedStep s { s with status := Function.update s.status i .completed }
  | failRetry (s : SchedState k) (i : Fin k) (h : s.status i = .processing) :
      SchedStep s { s with status := Function.update s.status i .pending }
  | failTerminal (s : SchedState k) (i : Fin k) (h : s.status i = .processing) :
      SchedStep s { s with status := Function.update s.status i .failed }
  | cancelJob (s : SchedState k) (i : Fin k) :
      SchedStep s { s with status := Function.update s.status i .cancelled }
  | release (s : SchedState k) (i : Fin k)
      (hh : 0 < s.held i) (hs : s.status i ≠ .processing) :
      SchedStep s ⟨s.avail + 1, s.status, Function.update s.held i (s.held i - 1)⟩

/-- The number of jobs whose status is `processing`. -/
def processingCount {k : Nat} (s : SchedState k) : Nat :=
  (Finset.univ.filter (fun i => s.status i = JobStatus.processing)).card

/-- The semaphore invariant: free units plus held units total the
semaphore's capacity `N`, and every processing job's task holds at least
one unit. -/
def SchedInv (N : Nat) {k : Nat} (s : SchedState k) : Prop :=
  (s.avail + Finset.univ.sum (fun i => s.held i) = N) ∧
  ∀ i, s.status i = JobStatus.processing → 1 ≤ s.held i

/-- Initial state of a batch run: the semaphore is full, no units are held,
and no job is processing (`process_batch` schedules only pending jobs). -/
def SchedInit (N : Nat) {k : Nat} (s : SchedState k) : Prop :=
  s.avail = N ∧ (∀ i, s.held i = 0) ∧ ∀ i, s.status i ≠ JobStatus.processing

/-! ## Concrete fixtures used by witnesses and counterexamples -/

/-- A job as `add_job` creates it for an existing file and a non-empty
prompt, with all defaulted fields. -/
def baseJob : BatchJob :=
  { id := "job_0", image_path := "img.jpg", prompt := "a prompt",
    model := "kling_21_standard", parameters := [], created_at := "20250101_000000" }

/-- Two equal-priority jobs, the second created strictly later. -/
def jobEarly : BatchJob :=
  { baseJob with id := "a", priority := 3, created_at := "20250101_000001" }

/-- See `jobEarly`. -/
def jobLate : BatchJob :=
  { baseJob with id := "b", priority := 3, created_at := "20250102_000001" }

/-- A job that has reached the terminal `completed` state (after a batch
run such jobs remain in the `jobs` queue list). -/
def jobDone : BatchJob :=
  { baseJob with
      id := "done", status := .completed, started_at := some "20250101_000002",
      completed_at := some "20250101_000003", result := some "video" }

/-- A processor whose queue list holds the completed `jobDone`. -/
def stWithDone : ProcState := { jobs := [jobDone] }

/-- A cancelled (terminal) job. -/
def jobCancelled : BatchJob :=
  { baseJob with
      id := "t", status := .cancelled, completed_at := some "20250101_000004" }

/-- A failed job with four retries already used out of five: one more
retry is allowed and its backoff is `2 ^ 5 = 32` seconds. -/
def jobRetry5 : BatchJob :=
  { baseJob with
      id := "r5", status := .failed, retry_count := 4, max_retries := 5,
      error_message := some "boom" }

/-- A failed job with the default `max_retries = 2` and no retries used. -/
def jobRetry0 : BatchJob :=
  { baseJob with id := "r0", status := .failed, error_message := some "boom" }

/-- A job persisted while `processing`. -/
def jobInFlight : BatchJob :=
  { baseJob with
      id := "w", status := .processing, started_at := some "20250101_000005" }

/-- A ledger state holding the in-flight `jobInFlight`. -/
def stInFlight : ProcState := { jobs := [jobInFlight] }

/-- A ledger state holding one pending job only. -/
def stPendingOnly : ProcState := { jobs := [{ baseJob with id := "w2" }] }

/-- A ledger state with one completed job recorded. -/
def stCompletedOnly : ProcState :=
  { completed_jobs := [{ baseJob with id := "c", status := .completed }] }

/-- A file system on which only `img.jpg` exists. -/
def fsImgOnly : String → Bool := fun p => p == "img.jpg"

/-- A fresh scheduler state: two jobs pending, a free semaphore of size 2,
nothing held. -/
def schedStart : SchedState 2 :=
  ⟨2, fun _ => JobStatus.pending, fun _ => 0⟩

/-! # Theorems -/

/-- C10: for a model known to the pricing table, `calculate_cost` returns
exactly `cost_per_second * min(duration, max_duration)` as the total cost,
reports the capped duration as the effective duration, and carries a
non-null `duration_warning` exactly when the requested duration exceeds
the model's `max_duration`; for an unknown model it returns a zero-cost
record carrying an `error` field instead of raising. -/
theorem calculate_cost_spec (model : String) (duration : Int) :
    (∀ info, lookupPricing model = some info →
      ∃ warn,
        calculate_cost model duration =
          CostResult.priced model info.name (min duration info.max_duration)
            info.cost_per_second (info.cost_per_second * min duration info.max_duration)
            info.tier info.quality info.efficiency_score warn ∧
        (warn.isSome ↔ info.max_duration < duration)) ∧
    (lookupPricing model = none →
      calculate_cost model duration =
        CostResult.unknownModel ("Unknown model: " ++ model) 0 model duration) := by
  constructor
  · intro info hinfo
    refine ⟨if info.max_duration < duration
      then some ("Duration capped at " ++ toString info.max_duration ++ "s (model limit)")
      else none, ?_, ?_⟩
    · simp only [calculate_cost, hinfo, gt_iff_lt]
    · by_cases hd : info.max_duration < duration <;> simp [hd]
  · intro hnone
    simp only [calculate_cost, hnone]

/-- Witness for C10 at a known model with an over-limit duration. -/
theorem calculate_cost_spec_witness :
    ∃ warn,
      calculate_cost "kling_21_standard" 12 =
        CostResult.priced "kling_21_standard" "Kling 2.1 Standard" 10 (1/20) (1/2)
          "Standard" "High" (19/2) warn ∧
      (warn.isSome ↔ (10 : Int) < 12) := by
  have h := (calculate_cost_spec "kling_21_standard" 12).1
    ⟨"Kling 2.1 Standard", 1/4, 1/2, 1/20, 10, "Standard", "High", 19/2⟩ rfl
  norm_num at h ⊢
  exact h

/-- Python `not s.strip()` holds exactly when every character of `s` is
whitespace (an all-whitespace instruction counts as empty). -/
lemma pyStrip_eq_empty_iff (s : String) :
    pyStrip s = "" ↔ s.data.all Char.isWhitespace = true := by
  rw [String.ext_iff]
  show ((s.data.dropWhile Char.isWhitespace).reverse.dropWhile
        Char.isWhitespace).reverse = [] ↔ _
  rw [List.reverse_eq_nil_iff, List.dropWhile_eq_nil_iff, List.all_eq_true]
  constructor
  · intro h x hx
    rw [← List.takeWhile_append_dropWhile (p := Char.isWhitespace) (l := s.data)]
      at hx
    rcases List.mem_append.mp hx with hx | hx
    · exact List.mem_takeWhile_imp hx
    · exact h x (List.mem_reverse.mpr hx)
  · intro h x hx
    exact h x ((List.dropWhile_sublist Char.isWhitespace).subset
      (List.mem_reverse.mp hx))

/-- C8: `add_job` fails exactly when the image path does not exist on the
file system or the prompt strips to empty (all-whitespace counts as
empty); the failure happens before any mutation, so the state is returned
untouched and no job id is produced.  On success a fresh job enters the
queue with status `pending` and the estimated cost from the cost
calculator, the other buckets are untouched, and the queue gains exactly
that one job. -/
theorem add_job_spec (fs : String → Bool) (st : ProcState)
    (image_path prompt model : String) (parameters : List (String × Int))
    (priority : Int) (now : String) :
    ((∃ e, (add_job fs st image_path prompt model parameters priority now).2
        = .error e) ↔
      (fs image_path = false ∨ prompt.data.all Char.isWhitespace = true)) ∧
    ((∃ e, (add_job fs st image_path prompt model parameters priority now).2
        = .error e) →
      (add_job fs st image_path prompt model parameters priority now).1 = st) ∧
    (∀ jid, (add_job fs st image_path prompt model parameters priority now).2
        = .ok jid →
      ∃ job,
        job ∈ (add_job fs st image_path prompt model parameters priority now).1.jobs ∧
        job.id = jid ∧ job.status = .pending ∧
        job.estimated_cost
          = (calculate_cost model (getDuration parameters)).totalCostOrZero ∧
        job.prompt = prompt ∧ job.image_path = image_path ∧
        job.created_at = now ∧
        (add_job fs st image_path prompt model parameters priority now).1.completed_jobs
          = st.completed_jobs ∧
        (add_job fs st image_path prompt model parameters priority now).1.failed_jobs
          = st.failed_jobs ∧
        (add_job fs st image_path prompt model parameters priority now).1.jobs.Perm
          (st.jobs ++ [job]) ∧
        (add_job fs st image_path prompt model parameters priority now).1.stats.total_jobs
          = st.stats.total_jobs + 1 ∧
        (add_job fs st image_path prompt model parameters priority now).1.stats.total_cost
          = st.stats.total_cost + job.estimated_cost) := by
  by_cases hfs : fs image_path = true
  · by_cases hp : pyStrip prompt = ""
    · have hadd : add_job fs st image_path prompt model parameters priority now
          = (st, .error .emptyPrompt) := by
        simp [add_job, hfs, hp]
      rw [hadd]
      refine ⟨?_, fun _ => rfl, ?_⟩
      · constructor
        · intro _
          exact Or.inr ((pyStrip_eq_empty_iff prompt).mp hp)
        · intro _
          exact ⟨.emptyPrompt, rfl⟩
      · intro jid h
        simp at h
    · have hws : ¬ prompt.data.all Char.isWhitespace = true :=
        fun hw => hp ((pyStrip_eq_empty_iff prompt).mpr hw)
      have hadd : add_job fs st image_path prompt model parameters priority now
          = ({ st with
                jobs := sortJobs (st.jobs ++
                  [⟨"job_" ++ now ++ "_" ++ formatted3 st.jobs.length,
                    image_path, prompt, model, parameters, priority, .pending, now,
                    none, none, none, none, 0, 2,
                    (calculate_cost model (getDuration parameters)).totalCostOrZero,
                    none⟩]),
                stats := { st.stats with
                            total_jobs := st.stats.total_jobs + 1,
                            total_cost := st.stats.total_cost
                              + (calculate_cost model
                                  (getDuration parameters)).totalCostOrZero } },
             .ok ("job_" ++ now ++ "_" ++ formatted3 st.jobs.length)) := by
        simp [add_job, hfs, hp]
      rw [hadd]
      refine ⟨?_, ?_, ?_⟩
      · simp [hfs, hws]
      · rintro ⟨e, he⟩
        simp at he
      · intro jid hok
        simp only [Except.ok.injEq] at hok
        subst hok
        refine ⟨⟨"job_" ++ now ++ "_" ++ formatted3 st.jobs.length,
            image_path, prompt, model, parameters, priority, .pending, now,
            none, none, none, none, 0, 2,
            (calculate_cost model (getDuration parameters)).totalCostOrZero, none⟩,
          ?_, rfl, rfl, rfl, rfl, rfl, rfl, rfl, rfl, ?_, rfl, rfl⟩
        · exact ((List.perm_insertionSort jobLeDesc _).mem_iff).mpr
            (List.mem_append_right _ (List.mem_singleton_self _))
        · exact List.perm_insertionSort jobLeDesc _
  · have hfs' : fs image_path = false := by simpa using hfs
    have hadd : add_job fs st image_path prompt model parameters priority now
        = (st, .error (.fileNotFound image_path)) := by
      simp [add_job, hfs']
    rw [hadd]
    refine ⟨?_, fun _ => rfl, ?_⟩
    · simp [hfs']
    · intro jid h
      simp at h

/-- Witness for C8: adding a job for an existing file with a non-empty
prompt on an empty processor. -/
theorem add_job_spec_witness :
    ∃ job,
      job ∈ (add_job fsImgOnly {} "img.jpg" "a prompt" "kling_21_standard" [] 1
        "20250101_000000").1.jobs ∧
      job.id = "job_20250101_000000_000" ∧ job.status = .pending ∧
      job.estimated_cost
        = (calculate_cost "kling_21_standard" (getDuration [])).totalCostOrZero ∧
      job.prompt = "a prompt" ∧ job.image_path = "img.jpg" ∧
      job.created_at = "20250101_000000" ∧
      (add_job fsImgOnly {} "img.jpg" "a prompt" "kling_21_standard" [] 1
        "20250101_000000").1.completed_jobs = [] ∧
      (add_job fsImgOnly {} "img.jpg" "a prompt" "kling_21_standard" [] 1
        "20250101_000000").1.failed_jobs = [] ∧
      (add_job fsImgOnly {} "img.jpg" "a prompt" "kling_21_standard" [] 1
        "20250101_000000").1.jobs.Perm [job] ∧
      (add_job fsImgOnly {} "img.jpg" "a prompt" "kling_21_standard" [] 1
        "20250101_000000").1.stats.total_jobs = 1 ∧
      (add_job fsImgOnly {} "img.jpg" "a prompt" "kling_21_standard" [] 1
        "20250101_000000").1.stats.total_cost = 0 + job.estimated_cost :=
  (add_job_spec fsImgOnly {} "img.jpg" "a prompt" "kling_21_standard" [] 1
    "20250101_000000").2.2 "job_20250101_000000_000" rfl

/-- C3 counterexample: two pending jobs with equal priority where the
second was created strictly later.  `add_job`'s sort
(`reverse=True` over the key `(priority, created_at)`) places the LATER
`created_at` first, so the earlier-created job is NOT selected first. -/
theorem sortJobs_ties_later_first :
    jobEarly.priority = jobLate.priority ∧
    jobEarly.created_at < jobLate.created_at ∧
    sortJobs [jobEarly, jobLate] = [jobLate, jobEarly] := by
  have hlt : jobEarly.created_at < jobLate.created_at := by
    show ("20250101_000001" : String) < "20250102_000001"
    simp
    decide
  have hAB : ¬ jobLeDesc jobEarly jobLate := by
    intro hcontra
    rcases hcontra with hcontra | ⟨-, hcontra⟩
    · exact absurd hcontra (by decide)
    · revert hcontra
      show ¬ (("20250102_000001" : String) ≤ "20250101_000001")
      simp
      decide
  refine ⟨rfl, hlt, ?_⟩
  simp [sortJobs, List.insertionSort, List.orderedInsert, hAB]

/-- C3 (amended): the pending queue is kept sorted by
`(priority, createdAt)` descending in BOTH components — higher priority
first, and for equal priorities the LATER `createdAt` first — and sorting
only reorders, never adds or drops jobs; every successful `add_job` leaves
the queue sorted this way. -/
theorem sortJobs_sorted :
    (∀ l : List BatchJob,
      List.Sorted jobLeDesc (sortJobs l) ∧ (sortJobs l).Perm l) ∧
    (∀ fs st image_path prompt model parameters priority now jid,
      (add_job fs st image_path prompt model parameters priority now).2
        = .ok jid →
      List.Sorted jobLeDesc
        (add_job fs st image_path prompt model parameters priority now).1.jobs) := by
  refine ⟨fun l => ⟨List.sorted_insertionSort jobLeDesc l,
    List.perm_insertionSort jobLeDesc l⟩, ?_⟩
  intro fs st image_path prompt model parameters priority now jid hok
  by_cases hfs : fs image_path = true
  · by_cases hp : pyStrip prompt = ""
    · simp [add_job, hfs, hp] at hok
    · simp only [add_job, hfs, Bool.not_true, Bool.false_eq_true, if_false,
        if_neg hp]
      exact List.sorted_insertionSort jobLeDesc _
  · have hfs' : fs image_path = false := by simpa using hfs
    simp [add_job, hfs'] at hok

/-- Witness for the amended C3 at a successful concrete `add_job`. -/
theorem sortJobs_sorted_witness :
    List.Sorted jobLeDesc
      (add_job fsImgOnly {} "img.jpg" "a prompt" "kling_21_standard" [] 1
        "20250101_000000").1.jobs :=
  sortJobs_sorted.2 fsImgOnly {} "img.jpg" "a prompt" "kling_21_standard" [] 1
    "20250101_000000" "job_20250101_000000_000" rfl

/-! ### Loading lemmas shared by the restart-recovery and round-trip
claims. -/

/-- One loading step appends exactly the transformed record somewhere in
the ledger. -/
lemma loadStep_allJobs_perm (st : ProcState) (j : BatchJob) :
    (loadStep st j).allJobs.Perm (st.allJobs ++ [loadTransform j]) := by
  refine List.perm_iff_count.mpr fun y => ?_
  rcases hstat : j.status with _ | _ | _ | _ | _ <;>
    simp [loadStep, loadTransform, ProcState.allJobs, hstat, List.count_append,
      List.count_cons] <;> omega

/-- Folding the loader over a record list appends exactly the transformed
records (as a multiset). -/
lemma load_foldl_allJobs_perm (records : List BatchJob) (st : ProcState) :
    ((records.foldl loadStep st).allJobs).Perm
      (st.allJobs ++ records.map loadTransform) := by
  induction records generalizing st with
  | nil => simp
  | cons j rest ih =>
      have h2 : ((loadStep st j).allJobs ++ rest.map loadTransform).Perm
          ((st.allJobs ++ [loadTransform j]) ++ rest.map loadTransform) :=
        (loadStep_allJobs_perm st j).append_right _
      have h4 := (ih (loadStep st j)).trans h2
      rw [show (st.allJobs ++ [loadTransform j]) ++ rest.map loadTransform
          = st.allJobs ++ ((j :: rest).map loadTransform) by simp] at h4
      exact h4

/-- Loading never removes a job from the schedulable queue bucket. -/
lemma loadStep_jobs_mono (st : ProcState) (j x : BatchJob) (h : x ∈ st.jobs) :
    x ∈ (loadStep st j).jobs := by
  unfold loadStep
  split_ifs <;> simp [h]

/-- `loadStep_jobs_mono` folded over a record list. -/
lemma load_foldl_jobs_mono (records : List BatchJob) (st : ProcState)
    (x : BatchJob) (h : x ∈ st.jobs) :
    x ∈ (records.foldl loadStep st).jobs := by
  induction records generalizing st with
  | nil => exact h
  | cons j rest ih => exact ih _ (loadStep_jobs_mono st j x h)

/-- A record that is neither completed nor failed nor cancelled is loaded
(transformed) into the schedulable queue bucket. -/
lemma load_foldl_jobs_mem (records : List BatchJob) :
    ∀ (st : ProcState) (j : BatchJob), j ∈ records →
    j.status ≠ .completed → j.status ≠ .failed → j.status ≠ .cancelled →
    loadTransform j ∈ (records.foldl loadStep st).jobs := by
  induction records with
  | nil =>
      intro st j hj
      cases hj
  | cons a rest ih =>
      intro st j hj h1 h2 h3
      rcases List.mem_cons.mp hj with rfl | hj
      · refine load_foldl_jobs_mono rest _ _ ?_
        show loadTransform j ∈ (loadStep st j).jobs
        unfold loadStep
        rw [if_neg h1,
          if_neg (show ¬(j.status = .failed ∨ j.status = .cancelled) from
            fun hc => hc.elim h2 h3)]
        exact List.mem_append_right _ (List.mem_singleton_self _)
      · exact ih _ _ hj h1 h2 h3

/-- C5: loading a persisted ledger resets any `processing` job to
`pending` with `started_at` cleared and places it in the schedulable
queue; a job in any other status is loaded with every field (in
particular its status) unchanged. -/
theorem load_resets_processing (records : List BatchJob) (j : BatchJob)
    (hj : j ∈ records) :
    (j.status = .processing →
      { j with status := JobStatus.pending, started_at := none }
        ∈ (load_batch_data records).jobs) ∧
    (j.status ≠ .processing →
      j ∈ (load_batch_data records).allJobs) := by
  constructor
  · intro hp
    have h := load_foldl_jobs_mem records {} j hj
      (by simp [hp]) (by simp [hp]) (by simp [hp])
    simpa [load_batch_data, loadTransform, hp] using h
  · intro hp
    have hperm := load_foldl_allJobs_perm records {}
    have hmem : loadTransform j ∈ records.map loadTransform :=
      List.mem_map_of_mem _ hj
    have hin : loadTransform j ∈ (load_batch_data records).allJobs := by
      refine hperm.mem_iff.mpr ?_
      simpa [ProcState.allJobs] using hmem
    simpa [loadTransform, hp] using hin

/-- Witness for C5: a ledger holding one in-flight job. -/
theorem load_resets_processing_witness :
    { jobInFlight with status := JobStatus.pending, started_at := none }
      ∈ (load_batch_data [jobInFlight]).jobs :=
  (load_resets_processing [jobInFlight] jobInFlight
    (List.mem_singleton_self _)).1 rfl

/-- C9 counterexample: a ledger holding a `processing` job does not
round-trip: the loaded job comes back `pending` with `started_at`
cleared, so the loaded ledger differs from the saved one. -/
theorem save_load_changes_processing :
    jobInFlight.status = .processing ∧
    savedRecords stInFlight = [jobInFlight] ∧
    (load_batch_data (savedRecords stInFlight)).allJobs
      = [{ jobInFlight with status := JobStatus.pending, started_at := none }] ∧
    (load_batch_data (savedRecords stInFlight)).allJobs
      ≠ savedRecords stInFlight := by
  refine ⟨rfl, rfl, ?_, ?_⟩ <;> decide

/-- C9 (amended): for a ledger none of whose jobs is `processing`, saving
and re-loading reproduces exactly the same job records, every field
intact (the loader only re-buckets them); a `processing` job is instead
reset to `pending` with `startedAt` cleared. -/
theorem save_load_roundtrip (st : ProcState)
    (h : ∀ j ∈ savedRecords st, j.status ≠ .processing) :
    ((load_batch_data (savedRecords st)).allJobs).Perm (savedRecords st) := by
  have hperm := load_foldl_allJobs_perm (savedRecords st) {}
  have hmap : (savedRecords st).map loadTransform = savedRecords st := by
    have hid : ∀ j ∈ savedRecords st, loadTransform j = j := fun j hj => by
      simp [loadTransform, h j hj]
    rw [List.map_congr_left hid, List.map_id']
  refine hperm.trans ?_
  rw [show (ProcState.allJobs {}) ++ (savedRecords st).map loadTransform
      = savedRecords st by simp [ProcState.allJobs, hmap]]

/-- Witness for the amended C9 at a one-pending-job ledger. -/
theorem save_load_roundtrip_witness :
    ((load_batch_data (savedRecords stPendingOnly)).allJobs).Perm
      (savedRecords stPendingOnly) :=
  save_load_roundtrip stPendingOnly (by decide)

/-- What `removeFirst` finds: the found job was in the queue with the
requested id, and the remaining queue is made of jobs of the original
queue. -/
lemma removeFirst_spec (job_id : String) :
    ∀ (l rest : List BatchJob) (found : BatchJob),
      removeFirst job_id l = some (rest, found) →
      found ∈ l ∧ found.id = job_id ∧ ∀ x ∈ rest, x ∈ l := by
  intro l
  induction l with
  | nil =>
      intro rest found h
      simp [removeFirst] at h
  | cons a tail ih =>
      intro rest found h
      unfold removeFirst at h
      by_cases hid : a.id == job_id
      · rw [if_pos hid] at h
        simp only [Option.some.injEq, Prod.mk.injEq] at h
        obtain ⟨rfl, rfl⟩ := h
        exact ⟨List.mem_cons_self a tail, beq_iff_eq.mp hid,
          fun x hx => List.mem_cons_of_mem a hx⟩
      · rw [if_neg hid] at h
        cases hrec : removeFirst job_id tail with
        | none =>
            rw [hrec] at h
            cases h
        | some q =>
            rw [hrec] at h
            obtain ⟨rest', found'⟩ := q
            simp only [Option.some.injEq, Prod.mk.injEq] at h
            obtain ⟨hr, hf⟩ := h
            subst hr
            subst hf
            have hspec := ih rest' found' hrec
            refine ⟨List.mem_cons_of_mem a hspec.1, hspec.2.1, ?_⟩
            intro x hx
            rcases List.mem_cons.mp hx with rfl | hx
            · exact List.mem_cons_self _ _
            · exact List.mem_cons_of_mem _ (hspec.2.2 x hx)

/-- C4 counterexample: `remove_job` on a job that already reached the
terminal `completed` state (completed jobs stay in the queue list) changes
its status to `cancelled`. -/
theorem remove_job_cancels_terminal :
    jobDone.status = .completed ∧
    (remove_job stWithDone "done" "20250101_000010").2 = true ∧
    (remove_job stWithDone "done" "20250101_000010").1.failed_jobs
      = [{ jobDone with
            status := JobStatus.cancelled,
            completed_at := some "20250101_000010" }] := by
  refine ⟨rfl, ?_, ?_⟩ <;> decide

/-- C4 (amended): once a job is terminal, `retry` leaves it unchanged,
`clear_queue` only ever drops whole job records (never altering one), and
the batch run never touches it — every step of `process_batch`'s
scheduler changes a job's status only if that job was `pending` or
`processing`, except the cancellation step that models an external
`remove_job` call; `remove_job`, however, cancels the first queue-list
job with the requested id WHATEVER its status — in particular it
rewrites a terminal `completed` or exhausted-`failed` job to `cancelled`
— and that cancelled copy is the only record it introduces. -/
theorem terminal_no_transition :
    (∀ j : BatchJob, j.isTerminal → j.retry = j) ∧
    (∀ (st : ProcState) (filter : ClearFilter) (j : BatchJob),
      j ∈ (clear_queue st filter).allJobs → j ∈ st.allJobs) ∧
    (∀ (K : Nat) (s t : SchedState K) (i : Fin K),
      SchedStep s t → s.status i ≠ JobStatus.pending →
      s.status i ≠ JobStatus.processing →
      t.status i = s.status i ∨ t.status i = JobStatus.cancelled) ∧
    (∀ (st : ProcState) (job_id now : String) (j : BatchJob),
      j ∈ (remove_job st job_id now).1.allJobs →
      j ∈ st.allJobs ∨
        ∃ j0, j0 ∈ st.jobs ∧ j0.id = job_id ∧
          j = j0.cancel now) := by
  refine ⟨?_, ?_, ?_, ?_⟩
  · intro j hterm
    unfold BatchJob.retry
    rcases hterm with h | h | ⟨h, hrc⟩
    · rw [if_neg (by simp [BatchJob.can_retry, h])]
    · rw [if_neg (by simp [BatchJob.can_retry, h])]
    · rw [if_neg (by simp [BatchJob.can_retry, h, hrc])]
  · intro st filter j hj
    cases filter with
    | pending =>
        simp only [clear_queue, ProcState.allJobs, List.mem_append,
          List.mem_filter] at hj ⊢
        tauto
    | failed =>
        simp only [clear_queue, ProcState.allJobs, List.mem_append,
          List.not_mem_nil] at hj ⊢
        tauto
    | completed =>
        simp only [clear_queue, ProcState.allJobs, List.mem_append,
          List.not_mem_nil] at hj ⊢
        tauto
    | invalid s => exact hj
    | all =>
        simp [clear_queue, ProcState.allJobs] at hj
  · intro K s t i hstep h1 h2
    cases hstep with
    | acquire i0 ha hp =>
        by_cases hii : i = i0
        · subst hii
          exact absurd hp h1
        · exact Or.inl (Function.update_noteq hii _ _)
    | finish i0 h =>
        by_cases hii : i = i0
        · subst hii
          exact absurd h h2
        · exact Or.inl (Function.update_noteq hii _ _)
    | failRetry i0 h =>
        by_cases hii : i = i0
        · subst hii
          exact absurd h h2
        · exact Or.inl (Function.update_noteq hii _ _)
    | failTerminal i0 h =>
        by_cases hii : i = i0
        · subst hii
          exact absurd h h2
        · exact Or.inl (Function.update_noteq hii _ _)
    | cancelJob i0 =>
        by_cases hii : i = i0
        · subst hii
          exact Or.inr (Function.update_same _ _ _)
        · exact Or.inl (Function.update_noteq hii _ _)
    | release i0 hh hs0 =>
        exact Or.inl rfl
  · intro st job_id now j hj
    unfold remove_job at hj
    cases hfind : removeFirst job_id st.jobs with
    | none =>
        rw [hfind] at hj
        exact Or.inl hj
    | some p =>
        rw [hfind] at hj
        obtain ⟨rest, found⟩ := p
        obtain ⟨hmem, hidf, hsub⟩ := removeFirst_spec job_id st.jobs rest found hfind
        simp only [ProcState.allJobs, List.mem_append, List.mem_singleton] at hj
        rcases hj with (hj | hj) | (hj | rfl)
        · exact Or.inl (List.mem_append_left _ (List.mem_append_left _ (hsub j hj)))
        · exact Or.inl (List.mem_append_left _ (List.mem_append_right _ hj))
        · exact Or.inl (List.mem_append_right _ hj)
        · exact Or.inr ⟨found, hmem, hidf, rfl⟩

/-- Witness for the amended C4: retrying a cancelled job is the
identity. -/
theorem terminal_no_transition_witness :
    jobCancelled.retry = jobCancelled :=
  terminal_no_transition.1 jobCancelled (Or.inr (Or.inl rfl))

/-- C6 counterexample: the save trace of a concrete ledger contains no
rename at all, and its very first operation is a truncating open of the
ledger file itself — the data is not written to a temporary location
first, so an interruption mid-save leaves a partially-written ledger
file. -/
theorem save_not_atomic :
    (¬ ∃ op ∈ save_batch_data true stCompletedOnly, op.isRename = true) ∧
    (save_batch_data true stCompletedOnly).head?
      = some (FileOp.openTrunc batchFilePath) := by
  constructor
  · decide
  · rfl

/-- C6 (amended): `_save_batch_data` writes the ledger file in place:
every operation of its trace targets the ledger file directly and none is
a rename; the trace is exactly a truncating open, one write of the full
job list, and a close (or empty when `save_progress` is off). -/
theorem save_writes_in_place (st : ProcState) :
    (save_batch_data true st).all
      (fun op => op.target == batchFilePath && !op.isRename) = true ∧
    (save_batch_data true st).head? = some (FileOp.openTrunc batchFilePath) ∧
    FileOp.write batchFilePath st.allJobs ∈ save_batch_data true st ∧
    save_batch_data false st = [] := by
  refine ⟨?_, rfl, ?_, rfl⟩
  · simp [save_batch_data, FileOp.isRename, FileOp.target, batchFilePath]
  · simp [save_batch_data]

/-- C7 counterexample: a failed job with `retry_count = 4` out of
`max_retries = 5` is retried with a backoff of `2 ^ 5 = 32` seconds —
the code enforces no cap, so the delay exceeds the claimed 30-second
default cap. -/
theorem backoff_exceeds_default_cap :
    jobRetry5.can_retry = true ∧
    retryDelay jobRetry5.retry = 32 ∧
    30 < retryDelay jobRetry5.retry := by
  refine ⟨rfl, ?_, ?_⟩ <;> decide

/-- C7 (amended): the backoff before a retried job runs again is exactly
`2 ^ retryCount` seconds (base 1 s, `retryCount` counted after the
increment), with NO cap applied; only for the default `max_retries = 2`
is the delay necessarily at most `4 ≤ 30` seconds. -/
theorem backoff_formula (j : BatchJob) (h : j.can_retry = true) :
    retryDelay j.retry = 2 ^ (j.retry_count + 1) ∧
    (j.max_retries = 2 → retryDelay j.retry ≤ 4 ∧ retryDelay j.retry ≤ 30) := by
  have hretry : j.retry =
      { j with retry_count := j.retry_count + 1, status := JobStatus.pending,
               started_at := none, completed_at := none,
               error_message := none } := by
    unfold BatchJob.retry
    rw [if_pos h]
  have hbase : retryDelay j.retry = 2 ^ (j.retry_count + 1) := by
    rw [hretry]
    rfl
  refine ⟨hbase, ?_⟩
  intro hmax
  have hlt : j.retry_count < j.max_retries := by
    simp [BatchJob.can_retry] at h
    exact h.2
  have hle : j.retry_count + 1 ≤ 2 := by omega
  have hpow : 2 ^ (j.retry_count + 1) ≤ 2 ^ 2 :=
    Nat.pow_le_pow_right (by norm_num) hle
  constructor
  · rw [hbase]
    omega
  · rw [hbase]
    omega

/-- Witness for the amended C7: the first retry of a fresh default job
sleeps 2 seconds. -/
theorem backoff_formula_witness :
    retryDelay jobRetry0.retry = 2 ∧ retryDelay jobRetry0.retry ≤ 30 :=
  ⟨(backoff_formula jobRetry0 rfl).1,
   ((backoff_formula jobRetry0 rfl).2 rfl).2⟩

/-- Behaviour of the always-failing retry loop, by induction on the
remaining retry budget: the job ends `failed` with `retry_count` driven
up to exactly `max_retries`, after `max_retries - retry_count + 1`
execution attempts. -/
lemma process_always_fail_spec (errMsg now : String) :
    ∀ (n : Nat) (j : BatchJob), j.retry_count ≤ j.max_retries →
      j.max_retries - j.retry_count = n →
      (process_always_fail true errMsg now j).1.status = .failed ∧
      (process_always_fail true errMsg now j).1.retry_count = j.max_retries ∧
      (process_always_fail true errMsg now j).1.max_retries = j.max_retries ∧
      (process_always_fail true errMsg now j).2
        = j.max_retries - j.retry_count + 1 := by
  intro n
  induction n with
  | zero =>
      intro j h hfuel
      have hrc : j.retry_count = j.max_retries := by omega
      have hcond : (true && (j.fail errMsg now).can_retry) = false := by
        simp [BatchJob.fail, BatchJob.can_retry]
        omega
      unfold process_always_fail
      rw [if_neg (by simp [hcond])]
      refine ⟨rfl, ?_, rfl, ?_⟩
      · show j.retry_count = j.max_retries
        exact hrc
      · show 1 = j.max_retries - j.retry_count + 1
        omega
  | succ n ih =>
      intro j h hfuel
      have hlt : j.retry_count < j.max_retries := by omega
      have hcond : (true && (j.fail errMsg now).can_retry) = true := by
        simp [BatchJob.fail, BatchJob.can_retry]
        exact hlt
      have hrc : ((j.fail errMsg now).retry).retry_count = j.retry_count + 1 := by
        simp [BatchJob.fail, BatchJob.retry, BatchJob.can_retry, hlt]
      have hmr : ((j.fail errMsg now).retry).max_retries = j.max_retries := by
        simp [BatchJob.fail, BatchJob.retry, BatchJob.can_retry, hlt]
      have hspec := ih ((j.fail errMsg now).retry) (by omega) (by omega)
      unfold process_always_fail
      rw [if_pos (by simp [hcond])]
      refine ⟨hspec.1, ?_, ?_, ?_⟩
      · show (process_always_fail true errMsg now ((j.fail errMsg now).retry)).1.retry_count
            = j.max_retries
        rw [hspec.2.1, hmr]
      · show (process_always_fail true errMsg now ((j.fail errMsg now).retry)).1.max_retries
            = j.max_retries
        rw [hspec.2.2.1, hmr]
      · show (process_always_fail true errMsg now ((j.fail errMsg now).retry)).2 + 1
            = j.max_retries - j.retry_count + 1
        rw [hspec.2.2.2]
        omega

/-- C2: `retry` never pushes `retry_count` past `max_retries`; against a
generator that fails every attempt (with auto-retry on), a fresh job is
attempted exactly `max_retries + 1` times, ends in terminal `failed` with
`retry_count = max_retries`, and a further `retry` leaves it unchanged,
so it never re-enters `pending`. -/
theorem retry_bound (errMsg now : String) (j : BatchJob)
    (h0 : j.retry_count = 0) :
    (∀ j' : BatchJob, j'.retry_count ≤ j'.max_retries →
        j'.retry.retry_count ≤ j'.max_retries) ∧
    (process_always_fail true errMsg now j).1.status = .failed ∧
    (process_always_fail true errMsg now j).2 = j.max_retries + 1 ∧
    (process_always_fail true errMsg now j).1.retry_count
      = (process_always_fail true errMsg now j).1.max_retries ∧
    (process_always_fail true errMsg now j).1.retry
      = (process_always_fail true errMsg now j).1 := by
  have hspec := process_always_fail_spec errMsg now
    (j.max_retries - j.retry_count) j (by omega) rfl
  refine ⟨?_, hspec.1, ?_, ?_, ?_⟩
  · intro j' hle
    unfold BatchJob.retry
    by_cases hc : j'.can_retry
    · rw [if_pos hc]
      simp only [BatchJob.can_retry, Bool.and_eq_true, beq_iff_eq,
        decide_eq_true_eq] at hc
      show j'.retry_count + 1 ≤ j'.max_retries
      omega
    · rw [if_neg hc]
      exact hle
  · rw [hspec.2.2.2]
    omega
  · rw [hspec.2.1, hspec.2.2.1]
  · unfold BatchJob.retry
    rw [if_neg (by simp [BatchJob.can_retry, hspec.2.1, hspec.2.2.1])]

/-- Witness for C2: a fresh default job (max_retries = 2) is attempted
exactly three times and ends failed. -/
theorem retry_bound_witness :
    (process_always_fail true "boom" "T" baseJob).1.status = .failed ∧
    (process_always_fail true "boom" "T" baseJob).2 = 3 :=
  ⟨(retry_bound "boom" "T" baseJob rfl).2.1,
   (retry_bound "boom" "T" baseJob rfl).2.2.1⟩

/-- Every scheduler step preserves the semaphore invariant. -/
lemma schedStep_inv {k N : Nat} {s t : SchedState k}
    (hstep : SchedStep s t) (hinv : SchedInv N s) : SchedInv N t := by
  obtain ⟨hsum, hproc⟩ := hinv
  cases hstep with
  | acquire i ha hp =>
      constructor
      · have h1 : ∑ x ∈ Finset.univ, Function.update s.held i (s.held i + 1) x
            = (s.held i + 1) + ∑ x ∈ Finset.univ \ {i}, s.held x :=
          Finset.sum_update_of_mem (Finset.mem_univ i) s.held _
        have h2 : ∑ x ∈ Finset.univ, s.held x
            = ∑ x ∈ Finset.univ \ {i}, s.held x + s.held i :=
          Finset.sum_eq_sum_diff_singleton_add (Finset.mem_univ i) s.held
        show s.avail - 1 + ∑ x ∈ Finset.univ,
          Function.update s.held i (s.held i + 1) x = N
        omega
      · intro j hj
        by_cases hji : j = i
        · subst hji
          show 1 ≤ Function.update s.held j (s.held j + 1) j
          rw [Function.update_same]
          omega
        · show 1 ≤ Function.update s.held i (s.held i + 1) j
          rw [Function.update_noteq hji]
          refine hproc j ?_
          have hj' : Function.update s.status i JobStatus.processing j
              = JobStatus.processing := hj
          rwa [Function.update_noteq hji] at hj'
  | finish i h =>
      refine ⟨hsum, fun j hj => ?_⟩
      by_cases hji : j = i
      · subst hji
        have : Function.update s.status j JobStatus.completed j
            = JobStatus.processing := hj
        rw [Function.update_same] at this
        cases this
      · refine hproc j ?_
        have hj' : Function.update s.status i JobStatus.completed j
            = JobStatus.processing := hj
        rwa [Function.update_noteq hji] at hj'
  | failRetry i h =>
      refine ⟨hsum, fun j hj => ?_⟩
      by_cases hji : j = i
      · subst hji
        have : Function.update s.status j JobStatus.pending j
            = JobStatus.processing := hj
        rw [Function.update_same] at this
        cases this
      · refine hproc j ?_
        have hj' : Function.update s.status i JobStatus.pending j
            = JobStatus.processing := hj
        rwa [Function.update_noteq hji] at hj'
  | failTerminal i h =>
      refine ⟨hsum, fun j hj => ?_⟩
      by_cases hji : j = i
      · subst hji
        have : Function.update s.status j JobStatus.failed j
            = JobStatus.processing := hj
        rw [Function.update_same] at this
        cases this
      · refine hproc j ?_
        have hj' : Function.update s.status i JobStatus.failed j
            = JobStatus.processing := hj
        rwa [Function.update_noteq hji] at hj'
  | cancelJob i =>
      refine ⟨hsum, fun j hj => ?_⟩
      by_cases hji : j = i
      · subst hji
        have : Function.update s.status j JobStatus.cancelled j
            = JobStatus.processing := hj
        rw [Function.update_same] at this
        cases this
      · refine hproc j ?_
        have hj' : Function.update s.status i JobStatus.cancelled j
            = JobStatus.processing := hj
        rwa [Function.update_noteq hji] at hj'
  | release i hh hs =>
      constructor
      · have h1 : ∑ x ∈ Finset.univ, Function.update s.held i (s.held i - 1) x
            = (s.held i - 1) + ∑ x ∈ Finset.univ \ {i}, s.held x :=
          Finset.sum_update_of_mem (Finset.mem_univ i) s.held _
        have h2 : ∑ x ∈ Finset.univ, s.held x
            = ∑ x ∈ Finset.univ \ {i}, s.held x + s.held i :=
          Finset.sum_eq_sum_diff_singleton_add (Finset.mem_univ i) s.held
        show s.avail + 1 + ∑ x ∈ Finset.univ,
          Function.update s.held i (s.held i - 1) x = N
        omega
      · intro j hj
        by_cases hji : j = i
        · subst hji
          exact absurd hj hs
        · show 1 ≤ Function.update s.held i (s.held i - 1) j
          rw [Function.update_noteq hji]
          exact hproc j hj

/-- The semaphore invariant holds in every state reachable from a state
that satisfies it. -/
lemma schedInv_of_reach {k N : Nat} {s0 s : SchedState k}
    (h0 : SchedInv N s0)
    (h : Relation.ReflTransGen SchedStep s0 s) : SchedInv N s := by
  induction h with
  | refl => exact h0
  | tail _ hstep ih => exact schedStep_inv hstep ih

/-- Under the invariant, the number of processing jobs is bounded by the
semaphore capacity. -/
lemma schedInv_processing_le {k N : Nat} (s : SchedState k)
    (h : SchedInv N s) : processingCount s ≤ N := by
  obtain ⟨hsum, hproc⟩ := h
  have h1 : processingCount s
      = ∑ _i ∈ Finset.univ.filter
          (fun i => s.status i = JobStatus.processing), 1 :=
    Finset.card_eq_sum_ones _
  have h2 : (∑ _i ∈ Finset.univ.filter
        (fun i => s.status i = JobStatus.processing), 1)
      ≤ ∑ i ∈ Finset.univ.filter
          (fun i => s.status i = JobStatus.processing), s.held i := by
    refine Finset.sum_le_sum ?_
    intro i hi
    exact hproc i (Finset.mem_filter.mp hi).2
  have h3 : (∑ i ∈ Finset.univ.filter
        (fun i => s.status i = JobStatus.processing), s.held i)
      ≤ ∑ i ∈ Finset.univ, s.held i :=
    Finset.sum_le_sum_of_subset (Finset.filter_subset _ _)
  omega

/-- C1: starting a batch run with the semaphore full, no units held and no
job processing, every reachable instant of the run has at most `N` jobs in
status `processing`: a job becomes `processing` only through `acquire`
(holding a semaphore unit), and units are returned only after that job's
execution has left `processing`. -/
theorem concurrency_bound {k : Nat} (N : Nat) (s0 s : SchedState k)
    (hinit : SchedInit N s0)
    (hreach : Relation.ReflTransGen SchedStep s0 s) :
    processingCount s ≤ N := by
  obtain ⟨ha, hh, hs⟩ := hinit
  have h0 : SchedInv N s0 := by
    constructor
    · simp [hh, ha]
    · intro i hi
      exact absurd hi (hs i)
  exact schedInv_processing_le s (schedInv_of_reach h0 hreach)

/-- Witness for C1: the fresh two-job scheduler state with capacity 2. -/
theorem concurrency_bound_witness :
    processingCount schedStart ≤ 2 :=
  concurrency_bound 2 schedStart schedStart
    ⟨rfl, fun _ => rfl, by decide⟩ Relation.ReflTransGen.refl

end FalBatch

